import Mathlib

/-!
Shallow embedding of the rx-html reactive state container and template
combinator (`src/index.ts`), together with theorems checking the
natural-language specification against it.

The container exposes a `BehaviorSubject`-backed root whose `reduce`
serializes mutations through a promise chain, and `select(key)` derives
sub-states whose reducers are delegated to the root through a wrapper that
rebuilds the parent object by spread.  We model JavaScript values with an
allocation identifier on objects and arrays so that strict equality `===`
(reference identity), which the source uses for change suppression, is a
total computable function on values.
-/

namespace RxHtml

/-- JavaScript-like runtime values.  Objects and arrays carry an allocation
identifier so that strict equality (`===`) can be modelled: two object
values are `===` exactly when they carry the same identifier. -/
inductive Val : Type where
  | undefined : Val
  | null : Val
  | num : Int → Val
  | str : String → Val
  | obj : Nat → List (String × Val) → Val
  | arr : Nat → List Val → Val

/-- JavaScript strict equality `===`: structural on primitives, reference
identity (same allocation id) on objects and arrays. -/
def eqRef : Val → Val → Bool
  | .undefined, .undefined => true
  | .null, .null => true
  | .num a, .num b => a == b
  | .str a, .str b => a == b
  | .obj i _, .obj j _ => i == j
  | .arr i _, .arr j _ => i == j
  | _, _ => false

def isUndef : Val → Bool
  | .undefined => true
  | _ => false

/-- First-match association lookup; object keys are unique, and `setField`
below preserves that, so first-match agrees with JavaScript lookup. -/
def lookupField : List (String × Val) → String → Val
  | [], _ => .undefined
  | (k, v) :: rest, key => if k == key then v else lookupField rest key

/-- JavaScript member access `v[key]`: throws a `TypeError` on `null` and
`undefined`, looks the key up on objects (a missing key reads as
`undefined`), and reads as `undefined` on remaining values. -/
def getField : Val → String → Except String Val
  | .undefined, _ => .error "TypeError"
  | .null, _ => .error "TypeError"
  | .obj _ fs, k => .ok (lookupField fs k)
  | _, _ => .ok .undefined

/-- Field update as object spread performs it: an existing key keeps its
position and gets the new value, a new key is appended. -/
def setField : List (String × Val) → String → Val → List (String × Val)
  | [], key, x => [(key, x)]
  | (k, v) :: rest, key, x =>
    if k == key then (k, x) :: rest else (k, v) :: setField rest key x

/-- Object spread `{...v, [k]: x}`: copies the fields of `v` (keeping key
order, overriding `k`) into a freshly allocated object; spreading a
non-object contributes no own properties. -/
def spreadSet (fresh : Nat) (v : Val) (k : String) (x : Val) : Val :=
  match v with
  | .obj _ fs => .obj fresh (setField fs k x)
  | _ => .obj fresh [(k, x)]

/-- A reducer as the container runs it: from the current value and the next
free allocation id, either throw or return the next value, along with the
updated allocation counter (reducers may allocate objects). -/
def JsFun : Type := Val → Nat → Except String Val × Nat

/-- A pure reducer that allocates nothing. -/
def pureR (g : Val → Val) : JsFun := fun v n => (.ok (g v), n)

/-- A reducer that throws. -/
def throwR (e : String) : JsFun := fun _ n => (.error e, n)

/-- The identity reducer `x => x`. -/
def idR : JsFun := pureR id

/-- A reducer returning a fixed value, ignoring the current one. -/
def constR (w : Val) : JsFun := fun _ n => (.ok w, n)

/-- A root `BehaviorSubject`: its current value and the list of values
pushed by `subject.next` since creation, in order.  A subscriber attached
from the start observes the initial value followed by `published`. -/
structure Cell where
  value : Val
  published : List Val

/-- What a subscriber who subscribed at creation time observes on the root
stream: the replayed initial value, then every published value in order. -/
def viewFrom (initial : Val) (c : Cell) : List Val := initial :: c.published

/-- One mutation callback from `makeReducable`'s `reduce`, run when its
turn in the promise chain arrives: read `subject.value`, run the reducer,
return early when the result is `===` the current value, otherwise run the
optional default reducer (publishing its result unless it is `===` the
current value) or publish the result directly.  Returns the updated
subject, the updated allocation counter, and the outcome of the promise
handed back to the caller of `reduce`. -/
def reduceStep (dflt : Option JsFun) (c : Cell) (fresh : Nat) (r : JsFun) :
    Cell × Nat × Except String Unit :=
  match r c.value fresh with
  | (.error e, f1) => (c, f1, .error e)
  | (.ok next, f1) =>
    if eqRef c.value next then (c, f1, .ok ())
    else
      match dflt with
      | none => ({ value := next, published := c.published ++ [next] }, f1, .ok ())
      | some d =>
        match d next f1 with
        | (.error e, f2) => (c, f2, .error e)
        | (.ok reduced, f2) =>
          if eqRef reduced c.value then (c, f2, .ok ())
          else ({ value := reduced, published := c.published ++ [reduced] }, f2, .ok ())

/-- A sequence of `reduce` calls issued back-to-back on one root.  The
`reducing` promise chain runs the callbacks strictly in issue order; once
the chain is rejected, later callbacks never run and every later call's
returned promise rejects with the original reason (`.then` without a
rejection handler propagates it).  Returns the final subject and counter
and each call's promise outcome, in issue order. -/
def runQueue (dflt : Option JsFun) (c : Cell) (fresh : Nat) (poison : Option String) :
    List JsFun → Cell × Nat × List (Except String Unit)
  | [] => (c, fresh, [])
  | r :: rs =>
    match poison with
    | some e =>
      let (c', f', outs) := runQueue dflt c fresh (some e) rs
      (c', f', .error e :: outs)
    | none =>
      let (c1, f1, res) := reduceStep dflt c fresh r
      let p1 : Option String := match res with | .ok _ => none | .error e => some e
      let (c', f', outs) := runQueue dflt c1 f1 p1 rs
      (c', f', res :: outs)

/-- The reducer wrapper installed by `select(key)`'s `reduce`: pass an
`undefined` parent through unchanged, read the slice `current[key]` (which
throws on a `null` parent), run the caller's reducer on it, return the
parent unchanged when the result is `===` the slice, and otherwise rebuild
the parent as `{...current, [key]: next}`. -/
def wrapKey (k : String) (r : JsFun) : JsFun := fun current fresh =>
  if isUndef current then (.ok current, fresh)
  else
    match getField current k with
    | .error e => (.error e, fresh)
    | .ok slice =>
      match r slice fresh with
      | (.error e, f1) => (.error e, f1)
      | (.ok next, f1) =>
        if eqRef next slice then (.ok current, f1)
        else (.ok (spreadSet f1 current k next), f1 + 1)

/-- Delegation chain of nested selections: the node
`root.select k₁ |>.select k₂ ...` hands a caller's reducer to the root's
`reduce` as `wrapKey k₁ (wrapKey k₂ (... r))`. -/
def wrapPath : List String → JsFun → JsFun
  | [], r => r
  | k :: ks, r => wrapKey k (wrapPath ks r)

/-- Projection of one parent emission through a chain of selections: each
level pipes `filter (val ≠ undefined)` then `map (val[key])`.  `.ok none`
means the value was filtered out at some level; `.error` models the map
callback throwing, which terminates the derived stream with an error. -/
def projectStep : Val → List String → Except String (Option Val)
  | v, [] => .ok (some v)
  | v, k :: ks =>
    if isUndef v then .ok none
    else
      match getField v k with
      | .error e => .error e
      | .ok w => projectStep w ks

/-- What a subscriber of the selection at key path `ks` observes, given the
sequence of values the root stream delivers to it (current value first,
then each publish): the emitted slice values in order, and the error that
terminated the derived stream, if any. -/
def selectTrace (ks : List String) : List Val → List Val × Option String
  | [] => ([], none)
  | v :: vs =>
    match projectStep v ks with
    | .error e => ([], some e)
    | .ok none => selectTrace ks vs
    | .ok (some w) =>
      let (ws, err) := selectTrace ks vs
      (w :: ws, err)

mutual
/-- Structural (deep) equality of values, ignoring allocation identifiers:
two values can be structurally equal while not being `===`. -/
def structEq : Val → Val → Bool
  | .undefined, .undefined => true
  | .null, .null => true
  | .num a, .num b => a == b
  | .str a, .str b => a == b
  | .obj _ fs, .obj _ gs => structEqFields fs gs
  | .arr _ xs, .arr _ ys => structEqItems xs ys
  | _, _ => false

def structEqFields : List (String × Val) → List (String × Val) → Bool
  | [], [] => true
  | (k1, v1) :: r1, (k2, v2) :: r2 => k1 == k2 && structEq v1 v2 && structEqFields r1 r2
  | _, _ => false

def structEqItems : List Val → List Val → Bool
  | [], [] => true
  | x :: xs, y :: ys => structEq x y && structEqItems xs ys
  | _, _ => false
end

/-- The write-back reducer `createItemState` installs on the owning array:
`currentItems => currentItems.map(x => x === item ? current : x)`.
`Array.prototype.map` always allocates a fresh array; calling it on a
non-array throws. -/
def mapWriteBack (captured next : Val) : JsFun := fun v fresh =>
  match v with
  | .arr _ items =>
    (.ok (.arr fresh (items.map fun x => if eqRef x captured then next else x)), fresh + 1)
  | _ => (.error "TypeError", fresh)

/-- One `reduce` on an item-state built by `createItemState source item`.
The item-state is a fresh root whose default reducer performs the
write-back: when the caller's reducer produces a value not `===` the item
subject's current value, the default reducer runs
`source.reduce(currentItems => currentItems.map(x => x === item ? current : x))`
on the array root and then yields the new value, which is published on the
item subject unless it is `===` the item subject's current value.  Returns
the array root, the item root, the allocation counter and the outcome of
the mutation promise. -/
def itemStateReduce (arrC itemC : Cell) (fresh : Nat) (captured : Val) (r : JsFun) :
    Cell × Cell × Nat × Except String Unit :=
  match r itemC.value fresh with
  | (.error e, f1) => (arrC, itemC, f1, .error e)
  | (.ok next, f1) =>
    if eqRef itemC.value next then (arrC, itemC, f1, .ok ())
    else
      match reduceStep none arrC f1 (mapWriteBack captured next) with
      | (arrC', f2, .error e) => (arrC', itemC, f2, .error e)
      | (arrC', f2, .ok _) =>
        if eqRef next itemC.value then (arrC', itemC, f2, .ok ())
        else (arrC', { value := next, published := itemC.published ++ [next] }, f2, .ok ())

/-- A rendered template result: the literal parts together with the
argument values interpolated by the templating engine. -/
structure Rendered where
  parts : List String
  values : List Val

/-- A top-level template argument: either a plain value (wrapped by
`makeObservable` into `of(arg)`, a stream that yields it immediately at
subscribe time) or a live stream, identified by an index into the ambient
event schedule. -/
inductive Arg : Type where
  | constA : Val → Arg
  | streamA : Nat → Arg

/-- The per-argument latest-value slots of `combineLatest` right after it
has subscribed to every normalized argument stream, in argument order:
constant arguments have emitted their value synchronously, stream
arguments have emitted nothing yet. -/
def initLatest (args : List Arg) : List (Option Val) :=
  args.map fun a => match a with
    | .constA v => some v
    | .streamA _ => none

def allSome (l : List (Option Val)) : Bool := l.all fun o => o.isSome

def snapshot (l : List (Option Val)) : List Val := l.map fun o => o.getD .undefined

/-- `combineLatest` after the subscribe phase: each event `(i, v)` is a
value produced by the stream occupying argument slot `i`; it updates that
slot's latest value, and an output is emitted exactly when every slot has
produced at least one value. -/
def runEvents (latest : List (Option Val)) : List (Nat × Val) → List (List Val)
  | [] => []
  | (i, v) :: evs =>
    let latest' := latest.set i (some v)
    if allSome latest' then snapshot latest' :: runEvents latest' evs
    else runEvents latest' evs

/-- The stream `html(parts, ...args)` produces, given the schedule of
values the argument streams emit after subscription: `makeItemsObservable`
yields `of([])` for an empty argument list (one immediate emission), and
otherwise `combineLatest` of the normalized arguments, each emission being
mapped through the templating engine with the latest argument values in
original argument order. -/
def htmlTrace (parts : List String) (args : List Arg) (events : List (Nat × Val)) :
    List Rendered :=
  if args.isEmpty then [⟨parts, []⟩]
  else
    let l0 := initLatest args
    let subOuts := if allSome l0 then [snapshot l0] else []
    (subOuts ++ runEvents l0 events).map fun vs => ⟨parts, vs⟩

/-- The reducer `v => v + 1` from the specification's examples (identity on
non-numbers). -/
def addOne : Val → Val := fun v =>
  match v with
  | .num n => .num (n + 1)
  | w => w

/-- The value a root holds after one pure mutation: unchanged when the
reducer's result is `===` the current value, the result otherwise. -/
def applyPure (g : Val → Val) (v : Val) : Val :=
  if eqRef v (g v) then v else g v

/-- The publishes one pure mutation appends to the root stream: none when
suppressed by the `===` check, exactly the new value otherwise. -/
def emitPure (g : Val → Val) (v : Val) : List Val :=
  if eqRef v (g v) then [] else [g v]

/-- The slice a chain of selections reads, ignoring filtering: follow the
keys through object fields (anything else reads as `undefined`). -/
def getPath (v : Val) : List String → Val
  | [] => v
  | k :: ks =>
    match v with
    | .obj _ fs => getPath (lookupField fs k) ks
    | _ => .undefined

/-- Well-formedness of a key path for a write: every node strictly above
the leaf is an object whose allocation id is below the allocation
counter `n` (ids in a live heap are always below the next free id). -/
def pathOk (v : Val) : List String → Nat → Bool
  | [], _ => true
  | k :: ks, n =>
    match v with
    | .obj i fs => decide (i < n) && pathOk (lookupField fs k) ks n
    | _ => false

/-- The shape of a copy-on-write rebuild along a key path: at every level
the new value is a different reference from the old one, every field off
the path is the very same value (hence the same reference), and the leaf
at the end of the path is the supplied new slice. -/
def RebuiltAlong (leaf : Val) : List String → Val → Val → Prop
  | [], _, vNew => vNew = leaf
  | k :: ks, vOld, vNew =>
    eqRef vOld vNew = false ∧
    (∀ k2, k2 ≠ k → getField vNew k2 = getField vOld k2) ∧
    RebuiltAlong leaf ks (getPath vOld [k]) (getPath vNew [k])

/-- The latest-value slots after a list of events has been delivered. -/
def applyEvents (latest : List (Option Val)) : List (Nat × Val) → List (Option Val)
  | [] => latest
  | (i, v) :: evs => applyEvents (latest.set i (some v)) evs

/-! ### Basic lemmas about the embedding -/

theorem eqRef_refl (v : Val) : eqRef v v = true := by
  cases v <;> simp [eqRef]

theorem beqComm {α : Type} [BEq α] [LawfulBEq α] (a b : α) : (a == b) = (b == a) := by
  by_cases h : a = b
  · subst h
    rfl
  · rw [beq_eq_false_iff_ne.mpr h, beq_eq_false_iff_ne.mpr (Ne.symm h)]

theorem eqRef_symm (a b : Val) : eqRef a b = eqRef b a := by
  cases a <;> cases b <;> simp only [eqRef] <;> first
  | rfl
  | exact beqComm _ _

theorem lookupField_setField_self (fs : List (String × Val)) (k : String) (x : Val) :
    lookupField (setField fs k x) k = x := by
  induction fs with
  | nil => simp [setField, lookupField]
  | cons a rest ih =>
    obtain ⟨ak, av⟩ := a
    by_cases h : ak = k
    · subst h
      simp [setField, lookupField]
    · have hb : (ak == k) = false := beq_eq_false_iff_ne.mpr h
      simp [setField, lookupField, hb, ih]

theorem lookupField_setField_ne (fs : List (String × Val)) (k k2 : String) (x : Val)
    (h : k2 ≠ k) : lookupField (setField fs k x) k2 = lookupField fs k2 := by
  induction fs with
  | nil =>
    have hb : (k == k2) = false := beq_eq_false_iff_ne.mpr (Ne.symm h)
    simp [setField, lookupField, hb]
  | cons a rest ih =>
    obtain ⟨ak, av⟩ := a
    by_cases hak : ak = k
    · subst hak
      have hb : (ak == k2) = false := by
        exact beq_eq_false_iff_ne.mpr fun hc => h (hc ▸ rfl)
      simp [setField, lookupField, hb]
    · have hb : (ak == k) = false := beq_eq_false_iff_ne.mpr hak
      simp [setField, lookupField, hb, ih]

theorem map_noMatch (l : List Val) (c w : Val) (h : ∀ x ∈ l, eqRef x c = false) :
    (l.map fun x => if eqRef x c then w else x) = l := by
  induction l with
  | nil => rfl
  | cons a rest ih =>
    have ha : eqRef a c = false := h a (by simp)
    simp [ha, ih fun x hx => h x (by simp [hx])]

theorem allSome_set (l : List (Option Val)) (i : Nat) (v : Val)
    (h : allSome l = true) : allSome (l.set i (some v)) = true := by
  simp only [allSome, List.all_eq_true] at h ⊢
  intro o ho
  rcases List.mem_or_eq_of_mem_set ho with h1 | h1
  · exact h o h1
  · subst h1
    rfl

theorem allSome_applyEvents (evs : List (Nat × Val)) (l : List (Option Val))
    (h : allSome l = true) : allSome (applyEvents l evs) = true := by
  induction evs generalizing l with
  | nil => exact h
  | cons ev rest ih =>
    obtain ⟨i, v⟩ := ev
    exact ih _ (allSome_set l i v h)

theorem runEvents_eq_nil (evs : List (Nat × Val)) (l : List (Option Val))
    (h : allSome (applyEvents l evs) = false) : runEvents l evs = [] := by
  induction evs generalizing l with
  | nil => rfl
  | cons ev rest ih =>
    obtain ⟨i, v⟩ := ev
    have h' : allSome (applyEvents (l.set i (some v)) rest) = false := h
    have hs : allSome (l.set i (some v)) = false := by
      by_contra hc
      have ht : allSome (l.set i (some v)) = true := by
        revert hc
        cases allSome (l.set i (some v)) <;> simp
      rw [allSome_applyEvents rest _ ht] at h'
      exact absurd h' (by simp)
    simp [runEvents, hs, ih _ h']

theorem runEvents_append (evs : List (Nat × Val)) (l : List (Option Val)) (i : Nat) (v : Val) :
    runEvents l (evs ++ [(i, v)]) =
      runEvents l evs ++
        (if allSome ((applyEvents l evs).set i (some v))
         then [snapshot ((applyEvents l evs).set i (some v))] else []) := by
  induction evs generalizing l with
  | nil =>
    by_cases hc : allSome (l.set i (some v)) = true <;>
      simp [runEvents, applyEvents, hc]
  | cons ev rest ih =>
    obtain ⟨j, w⟩ := ev
    by_cases hc : allSome (l.set j (some w)) = true <;>
      simp [runEvents, applyEvents, hc, ih]

theorem runQueue_poisoned (dflt : Option JsFun) (c : Cell) (f : Nat) (e : String)
    (rs : List JsFun) :
    runQueue dflt c f (some e) rs = (c, f, rs.map fun _ => .error e) := by
  induction rs with
  | nil => rfl
  | cons r rest ih => simp [runQueue, ih]

/-- A reducer whose result is `===` its argument makes every selection
wrapper return the parent value itself (or throw while reaching the
slice); it never rebuilds the parent. -/
theorem wrapPath_suppress (g : Val → Val) (hg : ∀ s, eqRef s (g s) = true)
    (p : List String) (v : Val) (f : Nat) :
    (∃ w, wrapPath p (pureR g) v f = (.ok w, f) ∧ eqRef v w = true) ∨
    (∃ e f1, wrapPath p (pureR g) v f = (.error e, f1)) := by
  induction p generalizing v f with
  | nil => exact .inl ⟨g v, rfl, hg v⟩
  | cons k ks ih =>
    by_cases hu : isUndef v = true
    · refine .inl ⟨v, ?_, eqRef_refl v⟩
      simp [wrapPath, wrapKey, hu]
    · simp only [Bool.not_eq_true] at hu
      cases hget : getField v k with
      | error e =>
        refine .inr ⟨e, f, ?_⟩
        simp [wrapPath, wrapKey, hu, hget]
      | ok slice =>
        rcases ih slice f with ⟨w, hw, hww⟩ | ⟨e, f1, he⟩
        · have hsym : eqRef w slice = true := by
            rw [eqRef_symm]
            exact hww
          refine .inl ⟨v, ?_, eqRef_refl v⟩
          simp [wrapPath, wrapKey, hu, hget, hw, hsym]
        · refine .inr ⟨e, f1, ?_⟩
          simp [wrapPath, wrapKey, hu, hget, he]

/-- A selection reducer that changes its slice makes the delegation chain
rebuild exactly the key path: the root's reduce receives a copy-on-write
replacement that is a fresh object at every level of the path, preserves
every off-path field by reference, and carries the new slice at the
leaf. -/
theorem wrapPath_rebuild (g : Val → Val) (ks : List String) :
    ∀ (k : String) (v : Val) (f : Nat),
    pathOk v (k :: ks) f = true →
    eqRef (g (getPath v (k :: ks))) (getPath v (k :: ks)) = false →
    ∃ v' f', wrapPath (k :: ks) (pureR g) v f = (.ok v', f') ∧ f < f' ∧
      RebuiltAlong (g (getPath v (k :: ks))) (k :: ks) v v' := by
  induction ks with
  | nil =>
    intro k v f hok hch
    cases v with
    | obj i fs =>
      simp only [pathOk, Bool.and_eq_true, decide_eq_true_eq] at hok
      simp only [getPath] at hch
      refine ⟨.obj f (setField fs k (g (lookupField fs k))), f + 1, ?_, ?_, ?_, ?_, ?_⟩
      · simp [wrapPath, wrapKey, isUndef, getField, pureR, hch, spreadSet]
      · omega
      · simp only [eqRef]
        exact beq_eq_false_iff_ne.mpr (Nat.ne_of_lt hok.1)
      · intro k2 hk2
        simp only [getField]
        rw [lookupField_setField_ne fs k k2 _ hk2]
      · simp only [RebuiltAlong, getPath, getField, lookupField_setField_self]
    | undefined => simp [pathOk] at hok
    | null => simp [pathOk] at hok
    | num n => simp [pathOk] at hok
    | str s => simp [pathOk] at hok
    | arr j xs => simp [pathOk] at hok
  | cons k2 ks ih =>
    intro k v f hok hch
    cases v with
    | obj i fs =>
      simp only [pathOk, Bool.and_eq_true, decide_eq_true_eq] at hok
      simp only [getPath] at hch
      obtain ⟨c', f1, hwrap, hlt, hreb⟩ := ih k2 (lookupField fs k) f hok.2 hch
      have hne : eqRef (lookupField fs k) c' = false := by
        simp only [RebuiltAlong] at hreb
        exact hreb.1
      have hne' : eqRef c' (lookupField fs k) = false := by
        rw [eqRef_symm]
        exact hne
      refine ⟨.obj f1 (setField fs k c'), f1 + 1, ?_, ?_, ?_, ?_, ?_⟩
      · rw [wrapPath]
        simp [wrapKey, isUndef, getField, hwrap, hne', spreadSet]
      · omega
      · simp only [eqRef]
        exact beq_eq_false_iff_ne.mpr (by omega)
      · intro k3 hk3
        simp only [getField]
        rw [lookupField_setField_ne fs k k3 _ hk3]
      · simp only [getPath, getField, lookupField_setField_self]
        exact hreb
    | undefined => simp [pathOk] at hok
    | null => simp [pathOk] at hok
    | num n => simp [pathOk] at hok
    | str s => simp [pathOk] at hok
    | arr j xs => simp [pathOk] at hok

/-- One pure mutation on a root without a default reducer: the subject
keeps its value when the reducer's result is `===` it, and otherwise
stores and publishes the result; the mutation promise resolves. -/
theorem reduceStep_pure (c : Cell) (f : Nat) (g : Val → Val) :
    reduceStep none c f (pureR g) =
      (⟨applyPure g c.value, c.published ++ emitPure g c.value⟩, f, .ok ()) := by
  by_cases h : eqRef c.value (g c.value) = true <;>
    simp [reduceStep, pureR, applyPure, emitPure, h]

/-! ### Claim theorems -/

/-- C1: mutations on the same root are strictly sequential.  Two `reduce`
calls issued back-to-back without awaiting run their reducers in issue
order through the promise chain, and the second reducer observes the value
left by the first mutation (`applyPure g1 v`), never the pre-mutation base
`v`; each mutation publishes exactly its own suppression-filtered
emission.  On the specification's example (root `1`, `v => v` followed by
`v => v + 1`) the final value is `2` with exactly one emission beyond the
initial value, and both mutation promises resolve. -/
theorem reduce_serial_second_observes_first :
    (∀ (v : Val) (pub : List Val) (f : Nat) (g1 g2 : Val → Val),
      runQueue none ⟨v, pub⟩ f none [pureR g1, pureR g2] =
        (⟨applyPure g2 (applyPure g1 v),
          pub ++ emitPure g1 v ++ emitPure g2 (applyPure g1 v)⟩, f,
         [.ok (), .ok ()])) ∧
    runQueue none ⟨.num 1, []⟩ 0 none [idR, pureR addOne] =
      (⟨.num 2, [.num 2]⟩, 0, [.ok (), .ok ()]) := by
  refine ⟨?_, rfl⟩
  intro v pub f g1 g2
  simp [runQueue, reduceStep_pure]

/-- C2 fails on the code: the observable of a selection is only
`filter (val ≠ undefined)` then `map (val[key])`, with no per-node
equality check, so publishing the rebuilt root after a `sibling` mutation
re-emits to `target`'s subscribers.  Starting from
`{ target: 1, sibling: 2 }`, mutating through `select('sibling')` with
`v => v + 1` publishes one new root, after which `select('target')`'s
subscriber has received two emissions (replay plus one caused by the
sibling mutation) instead of the replayed one alone. -/
theorem select_sibling_mutation_emits_to_target :
    reduceStep none ⟨.obj 0 [("target", .num 1), ("sibling", .num 2)], []⟩ 1
        (wrapPath ["sibling"] (pureR addOne)) =
      (⟨.obj 1 [("target", .num 1), ("sibling", .num 3)],
        [.obj 1 [("target", .num 1), ("sibling", .num 3)]]⟩, 2, .ok ()) ∧
    selectTrace ["target"]
        (viewFrom (.obj 0 [("target", .num 1), ("sibling", .num 2)])
          ⟨.obj 1 [("target", .num 1), ("sibling", .num 3)],
           [.obj 1 [("target", .num 1), ("sibling", .num 3)]]⟩) =
      ([.num 1, .num 1], none) ∧
    selectTrace ["target"]
        (viewFrom (.obj 0 [("target", .num 1), ("sibling", .num 2)])
          ⟨.obj 1 [("target", .num 1), ("sibling", .num 3)],
           [.obj 1 [("target", .num 1), ("sibling", .num 3)]]⟩) ≠
      selectTrace ["target"]
        (viewFrom (.obj 0 [("target", .num 1), ("sibling", .num 2)])
          ⟨.obj 0 [("target", .num 1), ("sibling", .num 2)], []⟩) := by
  refine ⟨rfl, rfl, ?_⟩
  intro h
  simp [selectTrace, projectStep, isUndef, getField, lookupField, viewFrom] at h

/-- C2 amended: a mutation through `select('sibling')` that changes the
sibling slice does reach `select('target')`'s subscribers — the derived
node re-emits its (unchanged) slice on every defined root publication,
because derived observables perform no equality check of their own; the
equality checks sit only on the write path.  The target subscriber's trace
gains exactly one emission carrying the same target value as before. -/
theorem select_sibling_mutation_reemits_target (i f : Nat) (fs : List (String × Val))
    (g : Val → Val) (hif : i ≠ f)
    (hch : eqRef (g (lookupField fs "sibling")) (lookupField fs "sibling") = false) :
    reduceStep none ⟨.obj i fs, []⟩ f (wrapPath ["sibling"] (pureR g)) =
      (⟨.obj f (setField fs "sibling" (g (lookupField fs "sibling"))),
        [.obj f (setField fs "sibling" (g (lookupField fs "sibling")))]⟩, f + 1, .ok ()) ∧
    selectTrace ["target"]
        (viewFrom (.obj i fs)
          ⟨.obj f (setField fs "sibling" (g (lookupField fs "sibling"))),
           [.obj f (setField fs "sibling" (g (lookupField fs "sibling")))]⟩) =
      ([lookupField fs "target", lookupField fs "target"], none) := by
  constructor
  · have hroot :
        eqRef (Val.obj i fs)
          (Val.obj f (setField fs "sibling" (g (lookupField fs "sibling")))) = false := by
      simp only [eqRef]
      exact beq_eq_false_iff_ne.mpr hif
    simp [reduceStep, wrapPath, wrapKey, isUndef, getField, pureR, spreadSet, hch, hroot]
  · simp [selectTrace, projectStep, isUndef, getField, viewFrom,
      lookupField_setField_ne fs "sibling" "target" _ (by simp)]

theorem select_sibling_mutation_reemits_target_witness :
    reduceStep none ⟨.obj 0 [("target", .num 1), ("sibling", .num 2)], []⟩ 1
        (wrapPath ["sibling"] (pureR addOne)) =
      (⟨.obj 1 [("target", .num 1), ("sibling", .num 3)],
        [.obj 1 [("target", .num 1), ("sibling", .num 3)]]⟩, 2, .ok ()) ∧
    selectTrace ["target"]
        (viewFrom (.obj 0 [("target", .num 1), ("sibling", .num 2)])
          ⟨.obj 1 [("target", .num 1), ("sibling", .num 3)],
           [.obj 1 [("target", .num 1), ("sibling", .num 3)]]⟩) =
      ([.num 1, .num 1], none) :=
  select_sibling_mutation_reemits_target 0 1
    [("target", .num 1), ("sibling", .num 2)] addOne (by decide) (by decide)

/-- C3 fails on the code: after a reducer throws, the `reducing` promise is
rejected and every later `reduce` chains `.then` (with no rejection
handler) onto it, so the later callback never runs: the queue does not
advance.  From root `1`, a throwing reducer followed by `v => v + 1`
leaves the value at `1` with no publish and both promises rejected —
not the claimed final value `2` published by the second mutation. -/
theorem reducer_failure_stalls_queue :
    runQueue none ⟨.num 1, []⟩ 0 none [throwR "boom", pureR addOne] =
      (⟨.num 1, []⟩, 0, [.error "boom", .error "boom"]) ∧
    runQueue none ⟨.num 1, []⟩ 0 none [throwR "boom", pureR addOne] ≠
      (⟨.num 2, [.num 2]⟩, 0, [.error "boom", .ok ()]) := by
  refine ⟨rfl, ?_⟩
  intro h
  rw [show runQueue none ⟨.num 1, []⟩ 0 none [throwR "boom", pureR addOne] =
      (⟨.num 1, []⟩, 0, [.error "boom", .error "boom"]) from rfl] at h
  simp [Cell.mk.injEq] at h

/-- C3 amended: when a reducer throws, the promise returned to that caller
rejects with the failure and no value is published; however the root's
mutation queue does not advance past the failure — the rejected chain
poisons every subsequently queued `reduce`, whose reducer never runs,
whose returned promise rejects with the original failure, and which
leaves the state unchanged. -/
theorem reducer_failure_rejects_and_poisons (dflt : Option JsFun) (c : Cell) (f f1 : Nat)
    (e : String) (r : JsFun) (rs : List JsFun) (hr : r c.value f = (.error e, f1)) :
    runQueue dflt c f none (r :: rs) = (c, f1, .error e :: rs.map fun _ => .error e) := by
  simp [runQueue, reduceStep, hr, runQueue_poisoned]

theorem reducer_failure_rejects_and_poisons_witness :
    runQueue none ⟨.num 1, []⟩ 0 none [throwR "boom", pureR addOne, pureR addOne] =
      (⟨.num 1, []⟩, 0, [.error "boom", .error "boom", .error "boom"]) :=
  reducer_failure_rejects_and_poisons none ⟨.num 1, []⟩ 0 0 "boom" (throwR "boom")
    [pureR addOne, pureR addOne] rfl

/-- C4: equality suppression.  A reducer whose result is `===` the current
slice (in particular the identity reducer `x => x`) invoked through any
node — the root (`p = []`), a selection at any depth (`p` a key path), on
a root with or without a default reducer, or an item-state — leaves the
subject's value and its entire publish history unchanged, so no new
emission occurs anywhere in the tree: every derived subscriber trace is a
function of the root's publish list, and those are stated unchanged. -/
theorem identity_reduce_no_emission (dflt : Option JsFun) (p : List String) (v : Val)
    (pub : List Val) (f : Nat) (g : Val → Val) (hg : ∀ s, eqRef s (g s) = true) :
    (reduceStep dflt ⟨v, pub⟩ f (wrapPath p (pureR g))).1 = ⟨v, pub⟩ ∧
    (∀ ks, selectTrace ks
        (viewFrom v (reduceStep dflt ⟨v, pub⟩ f (wrapPath p (pureR g))).1) =
      selectTrace ks (viewFrom v ⟨v, pub⟩)) ∧
    (∀ (arrC itemC : Cell) (captured : Val),
      itemStateReduce arrC itemC f captured (pureR g) = (arrC, itemC, f, .ok ())) := by
  have hcell : (reduceStep dflt ⟨v, pub⟩ f (wrapPath p (pureR g))).1 = ⟨v, pub⟩ := by
    rcases wrapPath_suppress g hg p v f with ⟨w, hw, hww⟩ | ⟨e, f1, he⟩
    · simp [reduceStep, hw, hww]
    · simp [reduceStep, he]
  refine ⟨hcell, fun ks => by rw [hcell], ?_⟩
  intro arrC itemC captured
  simp [itemStateReduce, pureR, hg itemC.value]

theorem identity_reduce_no_emission_witness :
    (reduceStep none ⟨.obj 0 [("first", .str "jon")], []⟩ 1
        (wrapPath ["first"] (pureR id))).1 = ⟨.obj 0 [("first", .str "jon")], []⟩ :=
  (identity_reduce_no_emission none ["first"] (.obj 0 [("first", .str "jon")]) [] 1 id
    fun s => eqRef_refl s).1

/-- C5 documents intended behavior the code does not implement for `null`:
the selection guards only `current === undefined` and its observable
filters only `val !== undefined`, so a `null` parent reaches the member
access `current[key]`, which throws.  The mutation promise of a `reduce`
on a selection under a `null` parent rejects with a `TypeError` (not a
silent no-op), and a subscriber of the selection gets an error instead
of an empty stream; with an `undefined` parent both behave as the claim
describes.  The repository's own test is titled "reduce should not throw
when source value is null or undefined" and drives exactly the `null`
shape, so the `null` case is a code bug, not intended behavior. -/
theorem null_parent_select_reduce_rejects :
    reduceStep none ⟨.null, []⟩ 0 (wrapPath ["first"] (constR (.str "updated"))) =
      (⟨.null, []⟩, 0, .error "TypeError") ∧
    selectTrace ["first"] (viewFrom .null ⟨.null, []⟩) = ([], some "TypeError") ∧
    reduceStep none ⟨.undefined, []⟩ 0 (wrapPath ["first"] (constR (.str "updated"))) =
      (⟨.undefined, []⟩, 0, .ok ()) ∧
    selectTrace ["first"] (viewFrom .undefined ⟨.undefined, []⟩) = ([], none) :=
  ⟨rfl, rfl, rfl, rfl⟩

/-- C6: item-state write-back replaces every matching element by value
identity.  For an item-state whose current value is still the captured
`item`, a reducer producing a changed value `w` rewrites the parent array
to the one where every element `===` the captured item becomes `w`, with
exactly one array-level publish (and one item-level publish of `w`), and
the mutation promise resolves. -/
theorem itemState_writeback_replaces_matches (i f : Nat) (items pub itemPub : List Val)
    (captured : Val) (g : Val → Val) (hif : i ≠ f)
    (hch : eqRef captured (g captured) = false) :
    itemStateReduce ⟨.arr i items, pub⟩ ⟨captured, itemPub⟩ f captured (pureR g) =
      (⟨.arr f (items.map fun x => if eqRef x captured then g captured else x),
        pub ++ [.arr f (items.map fun x => if eqRef x captured then g captured else x)]⟩,
       ⟨g captured, itemPub ++ [g captured]⟩, f + 1, .ok ()) := by
  have hch' : eqRef (g captured) captured = false := by
    rw [eqRef_symm]
    exact hch
  have harr :
      eqRef (Val.arr i items)
        (Val.arr f (items.map fun x => if eqRef x captured then g captured else x)) =
        false := by
    simp only [eqRef]
    exact beq_eq_false_iff_ne.mpr hif
  simp [itemStateReduce, pureR, reduceStep, mapWriteBack, hch, hch', harr]

theorem itemState_writeback_replaces_matches_witness :
    itemStateReduce ⟨.arr 0 [.num 1, .num 2, .num 3], []⟩ ⟨.num 2, []⟩ 1 (.num 2)
        (pureR addOne) =
      (⟨.arr 1 [.num 1, .num 3, .num 3], [.arr 1 [.num 1, .num 3, .num 3]]⟩,
       ⟨.num 3, [.num 3]⟩, 2, .ok ()) :=
  itemState_writeback_replaces_matches 0 1 [.num 1, .num 2, .num 3] [] [] (.num 2) addOne
    (by decide) (by decide)

/-- C7: when the captured item is no longer present in the parent array,
an item-state write is a no-op on the array's contents: `map` matches no
element, so the published array carries exactly the previous elements, no
element is replaced, and no error is raised (the mutation promise
resolves).  (The code still publishes a fresh array object with those
unchanged contents, because `map` always allocates; the claim makes no
statement about emissions.) -/
theorem itemState_writeback_missing_item_noop (i f : Nat) (items pub itemPub : List Val)
    (itemVal captured : Val) (g : Val → Val)
    (habs : ∀ x ∈ items, eqRef x captured = false) (hif : i ≠ f)
    (hch : eqRef itemVal (g itemVal) = false) :
    itemStateReduce ⟨.arr i items, pub⟩ ⟨itemVal, itemPub⟩ f captured (pureR g) =
      (⟨.arr f items, pub ++ [.arr f items]⟩,
       ⟨g itemVal, itemPub ++ [g itemVal]⟩, f + 1, .ok ()) := by
  have hch' : eqRef (g itemVal) itemVal = false := by
    rw [eqRef_symm]
    exact hch
  have harr : eqRef (Val.arr i items) (Val.arr f items) = false := by
    simp only [eqRef]
    exact beq_eq_false_iff_ne.mpr hif
  simp [itemStateReduce, pureR, reduceStep, mapWriteBack, hch, hch',
    map_noMatch items captured (g itemVal) habs, harr]

theorem itemState_writeback_missing_item_noop_witness :
    itemStateReduce ⟨.arr 0 [.num 1, .num 3], []⟩ ⟨.num 2, []⟩ 1 (.num 2) (pureR addOne) =
      (⟨.arr 1 [.num 1, .num 3], [.arr 1 [.num 1, .num 3]]⟩,
       ⟨.num 3, [.num 3]⟩, 2, .ok ()) :=
  itemState_writeback_missing_item_noop 0 1 [.num 1, .num 3] [] [] (.num 2) (.num 2) addOne
    (by decide) (by decide) (by decide)

/-- C8: a changed slice at a selection rebuilds exactly the key path.  When
the reducer of the node at key path `k :: ks` (each node above the leaf an
object with a live allocation id) produces a slice not `===` the current
one, the root performs a single publish of a value `v'` that is
`RebuiltAlong` the path: at every level the new object compares unequal
(`===` false) to the old one, every field off the path is the very same
value (hence the same reference) as before, and the leaf holds the
reducer's result. -/
theorem select_reduce_rebuilds_path (k : String) (ks : List String) (v : Val)
    (pub : List Val) (f : Nat) (g : Val → Val)
    (hok : pathOk v (k :: ks) f = true)
    (hch : eqRef (g (getPath v (k :: ks))) (getPath v (k :: ks)) = false) :
    ∃ v' f', reduceStep none ⟨v, pub⟩ f (wrapPath (k :: ks) (pureR g)) =
        (⟨v', pub ++ [v']⟩, f', .ok ()) ∧
      RebuiltAlong (g (getPath v (k :: ks))) (k :: ks) v v' := by
  obtain ⟨v', f', hwrap, hlt, hreb⟩ := wrapPath_rebuild g ks k v f hok hch
  have hne : eqRef v v' = false := by
    simp only [RebuiltAlong] at hreb
    exact hreb.1
  exact ⟨v', f', by simp [reduceStep, hwrap, hne], hreb⟩

theorem select_reduce_rebuilds_path_witness :
    pathOk (.obj 0 [("a", .obj 1 [("x", .num 1), ("y", .num 2)]), ("b", .num 9)])
        ["a", "x"] 2 = true ∧
    eqRef
        (addOne (getPath
          (.obj 0 [("a", .obj 1 [("x", .num 1), ("y", .num 2)]), ("b", .num 9)]) ["a", "x"]))
        (getPath
          (.obj 0 [("a", .obj 1 [("x", .num 1), ("y", .num 2)]), ("b", .num 9)]) ["a", "x"]) =
      false ∧
    ∃ v' f',
      reduceStep none
          ⟨.obj 0 [("a", .obj 1 [("x", .num 1), ("y", .num 2)]), ("b", .num 9)], []⟩ 2
          (wrapPath ["a", "x"] (pureR addOne)) =
        (⟨v', [v']⟩, f', .ok ()) ∧
      RebuiltAlong
        (addOne (getPath
          (.obj 0 [("a", .obj 1 [("x", .num 1), ("y", .num 2)]), ("b", .num 9)]) ["a", "x"]))
        ["a", "x"]
        (.obj 0 [("a", .obj 1 [("x", .num 1), ("y", .num 2)]), ("b", .num 9)]) v' :=
  ⟨rfl, rfl,
    select_reduce_rebuilds_path "a" ["x"]
      (.obj 0 [("a", .obj 1 [("x", .num 1), ("y", .num 2)]), ("b", .num 9)]) [] 2 addOne
      rfl rfl⟩

/-- C9: template fan-in completeness.  `html(parts, ...args)` (for
arguments that are plain values or streams) emits nothing as long as some
argument stream has not yet produced a value (the latest-value slots are
not all filled); once they are all filled, each further event appends
exactly one rendered result holding the then-current latest values of all
arguments in original argument order.  On the claim's example — one
stream argument — nothing is emitted before the first value, then one
result per value with `values[0]` the latest value. -/
theorem html_fanIn_complete :
    (∀ (parts : List String) (args : List Arg) (events : List (Nat × Val)),
      args.isEmpty = false →
      allSome (applyEvents (initLatest args) events) = false →
      htmlTrace parts args events = []) ∧
    (∀ (parts : List String) (args : List Arg) (evs : List (Nat × Val)) (i : Nat) (v : Val),
      args.isEmpty = false →
      allSome (applyEvents (initLatest args) evs) = true →
      htmlTrace parts args (evs ++ [(i, v)]) =
        htmlTrace parts args evs ++
          [⟨parts, snapshot ((applyEvents (initLatest args) evs).set i (some v))⟩]) ∧
    (∀ w1 w2 : Val,
      htmlTrace ["a", "b"] [.streamA 0] [] = [] ∧
      htmlTrace ["a", "b"] [.streamA 0] [(0, w1), (0, w2)] =
        [⟨["a", "b"], [w1]⟩, ⟨["a", "b"], [w2]⟩]) := by
  refine ⟨?_, ?_, ?_⟩
  · intro parts args events hne hnall
    have h0 : allSome (initLatest args) = false := by
      by_contra hc
      have ht : allSome (initLatest args) = true := by
        revert hc
        cases allSome (initLatest args) <;> simp
      rw [allSome_applyEvents events _ ht] at hnall
      exact absurd hnall (by simp)
    simp [htmlTrace, hne, h0, runEvents_eq_nil events _ hnall]
  · intro parts args evs i v hne hall
    have hset : allSome ((applyEvents (initLatest args) evs).set i (some v)) = true :=
      allSome_set _ i v hall
    simp [htmlTrace, hne, runEvents_append, hset]
  · intro w1 w2
    exact ⟨rfl, rfl⟩

theorem html_fanIn_complete_witness :
    htmlTrace ["a", "b"] [.streamA 0] [] = [] ∧
    htmlTrace ["a", "b"] [.streamA 0] [(0, .num 4), (0, .num 5)] =
      htmlTrace ["a", "b"] [.streamA 0] [(0, .num 4)] ++
        [⟨["a", "b"],
          snapshot ((applyEvents (initLatest [Arg.streamA 0]) [(0, .num 4)]).set 0
            (some (.num 5)))⟩] ∧
    allSome (applyEvents (initLatest [Arg.streamA 0]) []) = false :=
  ⟨html_fanIn_complete.1 ["a", "b"] [.streamA 0] [] rfl rfl,
   html_fanIn_complete.2.1 ["a", "b"] [.streamA 0] [(0, .num 4)] 0 (.num 5) rfl rfl,
   rfl⟩

/-- C10: change suppression is decided by reference identity (`===`), not
structural equality.  At the root, a reducer returning a value
structurally equal to — but a different reference from — the current value
is published to all subscribers; at a selection, a slice result that is a
distinct but structurally equal object propagates a new root publication
(the rebuilt parent). -/
theorem reference_not_structural_suppression :
    (∀ (v w : Val) (pub : List Val) (f : Nat),
      structEq v w = true → eqRef v w = false →
      reduceStep none ⟨v, pub⟩ f (constR w) = (⟨w, pub ++ [w]⟩, f, .ok ())) ∧
    (∀ (i f : Nat) (fs : List (String × Val)) (k : String) (w : Val) (pub : List Val),
      structEq (lookupField fs k) w = true → eqRef w (lookupField fs k) = false → i ≠ f →
      reduceStep none ⟨.obj i fs, pub⟩ f (wrapPath [k] (constR w)) =
        (⟨.obj f (setField fs k w), pub ++ [.obj f (setField fs k w)]⟩, f + 1, .ok ())) := by
  constructor
  · intro v w pub f _ hne
    simp [reduceStep, constR, hne]
  · intro i f fs k w pub _ hne hif
    have hroot : eqRef (Val.obj i fs) (Val.obj f (setField fs k w)) = false := by
      simp only [eqRef]
      exact beq_eq_false_iff_ne.mpr hif
    simp [reduceStep, wrapPath, wrapKey, isUndef, getField, constR, spreadSet, hne, hroot]

theorem reference_not_structural_suppression_witness :
    structEq (.obj 0 [("a", .num 1)]) (.obj 5 [("a", .num 1)]) = true ∧
    reduceStep none ⟨.obj 0 [("a", .num 1)], []⟩ 6 (constR (.obj 5 [("a", .num 1)])) =
      (⟨.obj 5 [("a", .num 1)], [.obj 5 [("a", .num 1)]]⟩, 6, .ok ()) ∧
    reduceStep none ⟨.obj 0 [("a", .obj 3 [])], []⟩ 7
        (wrapPath ["a"] (constR (.obj 4 []))) =
      (⟨.obj 7 [("a", .obj 4 [])], [.obj 7 [("a", .obj 4 [])]]⟩, 8, .ok ()) :=
  ⟨rfl,
   (reference_not_structural_suppression).1 (.obj 0 [("a", .num 1)]) (.obj 5 [("a", .num 1)])
     [] 6 rfl rfl,
   (reference_not_structural_suppression).2 0 7 [("a", .obj 3 [])] "a" (.obj 4 []) []
     rfl rfl (by decide)⟩

end RxHtml
